import Mathlib

/-!
# Verification of the n8n-g4f-proxy model gateway

Shallow embedding of `src/app.service.ts` (and the controller glue in
`src/app.controller.ts`): upstream-payload normalization for the models
endpoint, provider filtering, output rendering, diagnostic-message
construction, and the header/body handling of the three upstream calls.

Untyped JavaScript values are embedded as the inductive `JVal`; JavaScript
truthiness, `typeof` tests, property access (including the `TypeError` on
`null`/`undefined` receivers), `String(...)` conversion and `JSON.stringify`
are modelled explicitly.
-/

set_option autoImplicit false

namespace G4fProxy

/-- Untyped JavaScript/JSON values as handled by the service.  `jundefined` is
the JavaScript `undefined` value (absent properties evaluate to it). -/
inductive JVal where
  | jundefined : JVal
  | jnull : JVal
  | jbool : Bool → JVal
  | jnum : Int → JVal
  | jstr : String → JVal
  | jarr : List JVal → JVal
  | jobj : List (String × JVal) → JVal

namespace JVal

/-- JavaScript truthiness of a value. -/
def truthy : JVal → Bool
  | jundefined => false
  | jnull => false
  | jbool b => b
  | jnum n => n != 0
  | jstr s => s != ""
  | jarr _ => true
  | jobj _ => true

/-- `Array.isArray`. -/
def isArray : JVal → Bool
  | jarr _ => true
  | _ => false

/-- `typeof v === 'string'`. -/
def isString : JVal → Bool
  | jstr _ => true
  | _ => false

/-- `typeof v === 'object'` (true for `null`, arrays and plain objects). -/
def typeofObject : JVal → Bool
  | jnull => true
  | jarr _ => true
  | jobj _ => true
  | _ => false

/-- Elements of an array value (empty for non-arrays; used only under an
`isArray` guard). -/
def arrElems : JVal → List JVal
  | jarr xs => xs
  | _ => []

end JVal

open JVal

/-- First-match lookup in an object's field list; absent keys give the
JavaScript `undefined`.  Real JavaScript objects have unique keys, so the
first match is the only match. -/
def lookupField : List (String × JVal) → String → JVal
  | [], _ => .jundefined
  | (k, v) :: rest, key => if k = key then v else lookupField rest key

/-- Property read `v.key` for values where it cannot throw: objects look the
key up, other non-nullish values (numbers, strings, booleans, arrays without
that property) give `undefined`.  For `null`/`undefined` receivers see
`propGet`. -/
def fieldOf : JVal → String → JVal
  | .jobj fs, key => lookupField fs key
  | _, _ => .jundefined

/-- Property read `v.key` with the JavaScript `TypeError` on `null` and
`undefined` receivers made explicit. -/
def propGet : JVal → String → Except Unit JVal
  | .jnull, _ => .error ()
  | .jundefined, _ => .error ()
  | v, key => .ok (fieldOf v key)

mutual

/-- `String(v)`: JavaScript string conversion. -/
def jsToString : JVal → String
  | .jundefined => "undefined"
  | .jnull => "null"
  | .jbool b => if b then "true" else "false"
  | .jnum n => toString n
  | .jstr s => s
  | .jarr xs => jsArrJoin xs
  | .jobj _ => "[object Object]"

/-- `Array.prototype.toString`: elements joined by commas, `null` and
`undefined` elements rendered as empty. -/
def jsArrJoin : List JVal → String
  | [] => ""
  | [x] =>
    match x with
    | .jnull => ""
    | .jundefined => ""
    | v => jsToString v
  | x :: y :: rest =>
    (match x with
     | .jnull => ""
     | .jundefined => ""
     | v => jsToString v) ++ "," ++ jsArrJoin (y :: rest)

end

/-- JSON string quoting (the escapes `JSON.stringify` always emits for the
characters the service's data can contain). -/
def jsonQuote (s : String) : String :=
  "\"" ++ String.join (s.data.map (fun c =>
    if c = '"' then "\\\""
    else if c = '\\' then "\\\\"
    else String.mk [c])) ++ "\""

mutual

/-- `JSON.stringify`: `none` models the JavaScript call returning
`undefined` (which happens exactly on an `undefined` argument here). -/
def jsonStringify : JVal → Option String
  | .jundefined => none
  | .jnull => some "null"
  | .jbool b => some (if b then "true" else "false")
  | .jnum n => some (toString n)
  | .jstr s => some (jsonQuote s)
  | .jarr xs => some ("[" ++ jsonArrItems xs ++ "]")
  | .jobj fs => some ("\x7b" ++ jsonObjItems fs ++ "\x7d")

/-- Array items of `JSON.stringify`: `undefined` elements are rendered as
`null`. -/
def jsonArrItems : List JVal → String
  | [] => ""
  | [x] => (jsonStringify x).getD "null"
  | x :: y :: rest => (jsonStringify x).getD "null" ++ "," ++ jsonArrItems (y :: rest)

/-- Object items of `JSON.stringify`: fields whose value stringifies to
`undefined` are dropped. -/
def jsonObjItems : List (String × JVal) → String
  | [] => ""
  | (k, v) :: rest =>
    match jsonStringify v with
    | none => jsonObjItems rest
    | some s =>
      let item := jsonQuote k ++ ":" ++ s
      let restS := jsonObjItems rest
      if restS = "" then item else item ++ "," ++ restS

end

/-- Character-level truncation `s.slice(0, max)`. -/
def strTake (s : String) (max : Nat) : String :=
  ⟨s.data.take max⟩

/-- `safeStringify` from `app.service.ts` lines 12–23: strings are used
verbatim, everything else goes through `JSON.stringify`; the result is
truncated to `max` characters with a `"... (truncated)"` marker; if
`JSON.stringify` produced no string (`undefined`), reading `.length` throws
and the catch-block falls back to `String(obj)`. -/
def safeStringify (obj : JVal) (max : Nat) : String :=
  match obj with
  | .jstr s => if s.length > max then strTake s max ++ "... (truncated)" else s
  | _ =>
    match jsonStringify obj with
    | some s => if s.length > max then strTake s max ++ "... (truncated)" else s
    | none => jsToString obj

/-- Insert-or-append for the `modelMap` (`Map<string, string[]>`, lines
77–88): `modelMap.set(name, [...existing, providerName])` keeps the position
of an existing key (JS `Map` insertion order) and appends a new key at the
end. -/
def mapUpsert : List (String × List String) → String → String → List (String × List String)
  | [], name, providerName => [(name, [providerName])]
  | (k, ps) :: rest, name, providerName =>
    if k = name then (k, ps ++ [providerName]) :: rest
    else (k, ps) :: mapUpsert rest name providerName

/-- Inner loop of the provider-keyed transform (lines 81–87): for each
element of a provider's model-name array, string elements are recorded in
the model map, non-strings are skipped. -/
def addModelNames (acc : List (String × List String)) (providerName : String) :
    List JVal → List (String × List String)
  | [] => acc
  | .jstr s :: rest => addModelNames (mapUpsert acc s providerName) providerName rest
  | _ :: rest => addModelNames acc providerName rest

/-- Outer loop of the provider-keyed transform (lines 79–88): iterate
`Object.entries`, skipping entries whose value is not an array. -/
def buildModelMap (acc : List (String × List String)) :
    List (String × JVal) → List (String × List String)
  | [] => acc
  | (providerName, v) :: rest =>
    match v with
    | .jarr names => buildModelMap (addModelNames acc providerName names) rest
    | _ => buildModelMap acc rest

/-- Lines 91–94: the accumulated model map rendered as an array of
`{name, providers}` records. -/
def providerKeyedModels (fields : List (String × JVal)) : List JVal :=
  (buildModelMap [] fields).map (fun e =>
    .jobj [("name", .jstr e.1), ("providers", .jarr (e.2.map .jstr))])

/-- Lines 68–72: `Object.values(resp.data).every(v => Array.isArray(v) &&
v.every(item => typeof item === 'string'))`. -/
def isProviderKeyedFormat : JVal → Bool
  | .jobj fs => fs.all (fun kv =>
      match kv.2 with
      | .jarr xs => xs.all isString
      | _ => false)
  | _ => false

/-- Lines 54–58: the inner re-application of shape rules (1)–(3) to a
successfully parsed string payload. -/
def normalizeParsed (parsed : JVal) : List JVal :=
  if isArray parsed then arrElems parsed
  else if truthy parsed && isArray (fieldOf parsed "models") then arrElems (fieldOf parsed "models")
  else if truthy parsed && isArray (fieldOf parsed "data") then arrElems (fieldOf parsed "data")
  else []

/-- Lines 44–110: normalization of `resp.data` into the `models` array.
`parse` is the behaviour of `JSON.parse` (an external builtin): `none`
models a parse exception. -/
def normalizeModels (parse : String → Option JVal) (data : JVal) : List JVal :=
  if isArray data then arrElems data
  else if truthy data && isArray (fieldOf data "models") then arrElems (fieldOf data "models")
  else if truthy data && isArray (fieldOf data "data") then arrElems (fieldOf data "data")
  else
    match data with
    | .jstr s =>
      match parse s with
      | some parsed => normalizeParsed parsed
      | none => []
    | _ =>
      if truthy data && typeofObject data then
        if isProviderKeyedFormat data then
          match data with
          | .jobj fs => providerKeyedModels fs
          | _ => []
        else []
      else []

/-- Lines 123–132: per-record normalization of the `providers` field into a
list (the values are still arbitrary `JVal`s in the array case).  The
receiver `model` may be `null`/`undefined`, in which case the property read
itself throws. -/
def recordProvidersE (model : JVal) : Except Unit (List JVal) :=
  match propGet model "providers" with
  | .error e => .error e
  | .ok pv =>
    .ok (if isArray pv then arrElems pv
         else if truthy pv && typeofObject pv then
           match pv with
           | .jobj fs => fs.map (fun kv => .jstr kv.1)
           | _ => []
         else if isString pv then [pv]
         else [])

/-- `s.toLowerCase()` restricted to its ASCII action (the only case the
spec speaks about): each character is lowercased. -/
def strToLower (s : String) : String :=
  ⟨s.data.map Char.toLower⟩

/-- Line 134–136: does any (string-converted, lowercased) provider equal the
configured key? -/
def providersMatch (providerKey : String) (providers : List JVal) : Bool :=
  providers.any (fun p => strToLower (jsToString p) == providerKey)

/-- Lines 121–137: `models.filter(...)` with the possible `TypeError` on a
`null`/`undefined` record made explicit (the first throwing record aborts
the filter). -/
def filterModelsE (providerKey : String) : List JVal → Except Unit (List JVal)
  | [] => .ok []
  | m :: rest =>
    match recordProvidersE m with
    | .error e => .error e
    | .ok ps =>
      match filterModelsE providerKey rest with
      | .error e => .error e
      | .ok rest' =>
        if providersMatch providerKey ps then .ok (m :: rest') else .ok rest'

/-- Line 115: the `NotFoundException` message for an empty canonical list. -/
def noDataMsg (providerKey upstream sample : String) : String :=
  "No models found for provider \x27" ++ providerKey ++ "\x27 from upstream " ++
    upstream ++ ". Upstream response shape: " ++ sample

/-- Line 142: the `NotFoundException` message when filtering removed all
models. -/
def noMatchMsg (providerKey upstream sample : String) : String :=
  "No models matched provider \x27" ++ providerKey ++ "\x27 in upstream " ++
    upstream ++ ". Sample upstream models: " ++ sample

/-- Failures `getModels` can raise: the two `NotFoundException`s with their
messages, and the implicit `TypeError` from a nullish record in the filter
callback. -/
inductive JsError where
  | notFound : String → JsError
  | typeError : JsError

/-- Lines 147–156: rendering of one surviving record. -/
def renderModel (m : JVal) : JVal :=
  .jobj [("id", fieldOf m "name"),
         ("object", .jstr "model"),
         ("created", .jnum 0),
         ("owned_by", .jstr ""),
         ("image", if truthy (fieldOf m "image") then fieldOf m "image" else .jbool false),
         ("provider", .jbool true)]

/-- `getModels` response processing (lines 26–157), as a function of the
upstream response body `respData`.  `cfgProvider` is the value of
`process.env.LLM_PROXY_PROVIDER ?? ''` and `upstream` the upstream base URL
as interpolated into messages. -/
def getModels (parse : String → Option JVal) (cfgProvider upstream : String)
    (respData : JVal) : Except JsError JVal :=
  let providerKey := strToLower cfgProvider
  let models := normalizeModels parse respData
  if models.length = 0 then
    .error (.notFound (noDataMsg providerKey upstream (safeStringify respData 1000)))
  else
    match filterModelsE providerKey models with
    | .error _ => .error .typeError
    | .ok filteredModels =>
      if filteredModels.length = 0 then
        .error (.notFound (noMatchMsg providerKey upstream
          (safeStringify (.jarr (models.take 5)) 1000)))
      else
        .ok (.jobj [("object", .jstr "list"),
                    ("data", .jarr (filteredModels.map renderModel))])

/-- An outbound HTTP request as assembled by the service: URL, explicit
headers, and (for POST) the body. -/
structure HttpRequest where
  url : String
  headers : List (String × JVal)
  body : Option JVal

/-- Lines 26–36: the upstream GET for the models endpoint.  `headers` is the
inbound header object; `headers['authorization']` is forwarded iff truthy
(Node lowercases inbound header names). -/
def getModelsRequest (upstream : String) (headers : List (String × JVal)) : HttpRequest :=
  let auth := lookupField headers "authorization"
  { url := upstream ++ "/backend-api/v2/models",
    headers := if truthy auth then [("Authorization", auth)] else [],
    body := none }

/-- Lines 160–165: the upstream GET for the providers endpoint; the service
method takes no inbound headers and sends none. -/
def getProvidersRequest (upstream : String) : HttpRequest :=
  { url := upstream ++ "/v1/providers", headers := [], body := none }

/-- `body[key] = v` on an object: an existing key is overwritten in place,
a fresh key is appended. -/
def setField : List (String × JVal) → String → JVal → List (String × JVal)
  | [], key, v => [(key, v)]
  | (k, w) :: rest, key, v =>
    if k = key then (key, v) :: rest else (k, w) :: setField rest key v

/-- Lines 168–186: `postCompletions`.  The returned pair is (the state of
the caller's `body` object after the call — line 175 mutates it in place —
and the outbound request).  Non-object bodies are outside the modelled
behaviour and are passed through unchanged. -/
def postCompletions (upstream : String) (provider : JVal) (body : JVal)
    (headers : List (String × JVal)) : JVal × HttpRequest :=
  let auth := lookupField headers "authorization"
  let mutated :=
    match body with
    | .jobj fs => JVal.jobj (setField fs "provider" provider)
    | other => other
  (mutated,
   { url := upstream ++ "/v1/chat/completions",
     headers := [("Accept", .jstr "application/json"),
                 ("Content-Type", .jstr "application/json")] ++
       (if truthy auth then [("Authorization", auth)] else []),
     body := some mutated })

/-- Spec-side helper: "object with a sequence-valued field named `k`". -/
def specHasArrayField (v : JVal) (k : String) : Bool :=
  match v with
  | .jobj fs => isArray (lookupField fs k)
  | _ => false

/-- Modelled from the spec: the detection-order cascade of section 4.1 /
claim C2 — first match wins, in the priority: (1) array, (2) object with an
array-valued `models` field, (3) object with an array-valued `data` field,
(4) string, parsed and with only rules (1)–(3) re-applied to the parse
result, (5) provider-keyed object, (6) unrecognized, yielding the empty
list.  This definition follows the spec's words; `normalizeModels` follows
the source. -/
def specDetectionOrder (parse : String → Option JVal) : JVal → List JVal
  | .jarr xs => xs
  | .jstr s =>
    match parse s with
    | some parsed =>
      if isArray parsed then arrElems parsed
      else if specHasArrayField parsed "models" then arrElems (fieldOf parsed "models")
      else if specHasArrayField parsed "data" then arrElems (fieldOf parsed "data")
      else []
    | none => []
  | v =>
    if specHasArrayField v "models" then arrElems (fieldOf v "models")
    else if specHasArrayField v "data" then arrElems (fieldOf v "data")
    else if isProviderKeyedFormat v then
      match v with
      | .jobj fs => providerKeyedModels fs
      | _ => []
    else []

/-- The model-name view of a canonical list (the `name` field of each
record). -/
def modelNames (models : List JVal) : List JVal :=
  models.map (fun m => fieldOf m "name")

/-- `modelMap.get(name) || []` (line 83): the provider list stored under a
model name, empty when absent. -/
def lookupPs : List (String × List String) → String → List String
  | [], _ => []
  | (k, ps) :: rest, name => if k = name then ps else lookupPs rest name

/-- The key sequence of the model map (`Map` iteration order). -/
def mapKeys (mp : List (String × List String)) : List String :=
  mp.map Prod.fst

/-- `Boolean`-valued "value `v` mentions model name `m`" test: `v` is the
array under one provider key and `m` a model name. -/
def isNameStr (m : String) : JVal → Bool
  | .jstr s => s == m
  | _ => false

/-! ## Model-map lemmas -/

theorem lookupPs_mapUpsert (acc : List (String × List String)) (k p m : String) :
    lookupPs (mapUpsert acc k p) m =
      if k = m then lookupPs acc m ++ [p] else lookupPs acc m := by
  induction acc with
  | nil =>
    by_cases h : k = m <;> simp [mapUpsert, lookupPs, h]
  | cons hd tl ih =>
    obtain ⟨k', ps⟩ := hd
    by_cases hk : k' = k
    · subst hk
      by_cases hm : k' = m <;> simp [mapUpsert, lookupPs, hm]
    · by_cases hm : k' = m
      · subst hm
        have : ¬k = k' := fun h => hk h.symm
        simp [mapUpsert, lookupPs, hk, this]
      · simp [mapUpsert, lookupPs, hk, hm, ih]

theorem mapUpsert_cons_self (k p : String) (ps : List String)
    (tl : List (String × List String)) :
    mapUpsert ((k, ps) :: tl) k p = (k, ps ++ [p]) :: tl := by
  rw [mapUpsert, if_pos rfl]

theorem mapUpsert_cons_ne (k k' p : String) (hk : k' ≠ k) (ps : List String)
    (tl : List (String × List String)) :
    mapUpsert ((k', ps) :: tl) k p = (k', ps) :: mapUpsert tl k p := by
  rw [mapUpsert, if_neg hk]

theorem mem_mapKeys_mapUpsert (acc : List (String × List String)) (k p m : String) :
    m ∈ mapKeys (mapUpsert acc k p) ↔ m ∈ mapKeys acc ∨ m = k := by
  induction acc with
  | nil => simp [mapUpsert, mapKeys]
  | cons hd tl ih =>
    obtain ⟨k', ps⟩ := hd
    by_cases hk : k' = k
    · subst hk
      rw [mapUpsert_cons_self]
      simp only [mapKeys, List.map_cons, List.mem_cons]
      tauto
    · rw [mapUpsert_cons_ne k k' p hk]
      simp only [mapKeys, List.map_cons, List.mem_cons] at ih ⊢
      rw [ih]
      tauto

theorem nodup_mapKeys_mapUpsert (acc : List (String × List String)) (k p : String)
    (h : (mapKeys acc).Nodup) : (mapKeys (mapUpsert acc k p)).Nodup := by
  induction acc with
  | nil => simp [mapUpsert, mapKeys]
  | cons hd tl ih =>
    obtain ⟨k', ps⟩ := hd
    simp only [mapKeys, List.map_cons, List.nodup_cons] at h
    by_cases hk : k' = k
    · subst hk
      rw [mapUpsert_cons_self]
      simp only [mapKeys, List.map_cons, List.nodup_cons]
      exact h
    · rw [mapUpsert_cons_ne k k' p hk]
      simp only [mapKeys, List.map_cons, List.nodup_cons]
      refine ⟨?_, ih h.2⟩
      intro hmem
      rw [show (mapUpsert tl k p).map Prod.fst = mapKeys (mapUpsert tl k p) from rfl,
        mem_mapKeys_mapUpsert] at hmem
      rcases hmem with hmem | hmem
      · exact h.1 hmem
      · exact hk hmem

theorem lookupPs_addModelNames (names : List JVal) (acc : List (String × List String))
    (p m : String) :
    lookupPs (addModelNames acc p names) m =
      lookupPs acc m ++ List.replicate (names.countP (isNameStr m)) p := by
  induction names generalizing acc with
  | nil => simp [addModelNames]
  | cons hd tl ih =>
    cases hd with
    | jstr s =>
      rw [addModelNames, ih, lookupPs_mapUpsert]
      by_cases hs : s = m
      · subst hs
        simp [List.countP_cons, isNameStr, List.replicate_succ, List.append_assoc,
          List.replicate_succ']
      · have : isNameStr m (.jstr s) = false := by simp [isNameStr, hs]
        simp [List.countP_cons, this, hs]
    | jundefined => simp [addModelNames, ih, List.countP_cons, isNameStr]
    | jnull => simp [addModelNames, ih, List.countP_cons, isNameStr]
    | jbool b => simp [addModelNames, ih, List.countP_cons, isNameStr]
    | jnum n => simp [addModelNames, ih, List.countP_cons, isNameStr]
    | jarr xs => simp [addModelNames, ih, List.countP_cons, isNameStr]
    | jobj fs => simp [addModelNames, ih, List.countP_cons, isNameStr]

theorem mem_mapKeys_addModelNames (names : List JVal) (acc : List (String × List String))
    (p m : String) :
    m ∈ mapKeys (addModelNames acc p names) ↔
      m ∈ mapKeys acc ∨ names.any (isNameStr m) = true := by
  induction names generalizing acc with
  | nil => simp [addModelNames]
  | cons hd tl ih =>
    cases hd with
    | jstr s =>
      rw [addModelNames, ih, mem_mapKeys_mapUpsert]
      by_cases hs : s = m
      · subst hs
        simp [isNameStr]
      · have : isNameStr m (.jstr s) = false := by simp [isNameStr, hs]
        simp [this, hs]
        tauto
    | jundefined => simp [addModelNames, ih, isNameStr]
    | jnull => simp [addModelNames, ih, isNameStr]
    | jbool b => simp [addModelNames, ih, isNameStr]
    | jnum n => simp [addModelNames, ih, isNameStr]
    | jarr xs => simp [addModelNames, ih, isNameStr]
    | jobj fs => simp [addModelNames, ih, isNameStr]

theorem nodup_mapKeys_addModelNames (names : List JVal) (acc : List (String × List String))
    (p : String) (h : (mapKeys acc).Nodup) : (mapKeys (addModelNames acc p names)).Nodup := by
  induction names generalizing acc with
  | nil => simpa [addModelNames] using h
  | cons hd tl ih =>
    cases hd with
    | jstr s => exact ih _ (nodup_mapKeys_mapUpsert acc s p h)
    | jundefined => exact ih _ h
    | jnull => exact ih _ h
    | jbool b => exact ih _ h
    | jnum n => exact ih _ h
    | jarr xs => exact ih _ h
    | jobj fs => exact ih _ h

/-- How many times the value under one provider key mentions model name
`m`. -/
def strCount (v : JVal) (m : String) : Nat :=
  (arrElems v).countP (isNameStr m)

theorem lookupPs_buildModelMap (entries : List (String × JVal))
    (acc : List (String × List String)) (m : String) :
    lookupPs (buildModelMap acc entries) m =
      lookupPs acc m ++
        entries.flatMap (fun e => List.replicate (strCount e.2 m) e.1) := by
  induction entries generalizing acc with
  | nil => simp [buildModelMap]
  | cons hd tl ih =>
    obtain ⟨pn, v⟩ := hd
    cases v with
    | jarr names =>
      rw [buildModelMap, ih, lookupPs_addModelNames]
      simp [strCount, arrElems, List.append_assoc]
    | jundefined => simp [buildModelMap, ih, strCount, arrElems]
    | jnull => simp [buildModelMap, ih, strCount, arrElems]
    | jbool b => simp [buildModelMap, ih, strCount, arrElems]
    | jnum n => simp [buildModelMap, ih, strCount, arrElems]
    | jstr s => simp [buildModelMap, ih, strCount, arrElems]
    | jobj fs => simp [buildModelMap, ih, strCount, arrElems]

theorem mem_mapKeys_buildModelMap (entries : List (String × JVal))
    (acc : List (String × List String)) (m : String) :
    m ∈ mapKeys (buildModelMap acc entries) ↔
      m ∈ mapKeys acc ∨ entries.any (fun e => (arrElems e.2).any (isNameStr m)) = true := by
  induction entries generalizing acc with
  | nil => simp [buildModelMap]
  | cons hd tl ih =>
    obtain ⟨pn, v⟩ := hd
    cases v with
    | jarr names =>
      rw [buildModelMap, ih, mem_mapKeys_addModelNames]
      simp only [List.any_cons, arrElems, Bool.or_eq_true, or_assoc]
    | jundefined => simp [buildModelMap, ih, arrElems]
    | jnull => simp [buildModelMap, ih, arrElems]
    | jbool b => simp [buildModelMap, ih, arrElems]
    | jnum n => simp [buildModelMap, ih, arrElems]
    | jstr s => simp [buildModelMap, ih, arrElems]
    | jobj fs => simp [buildModelMap, ih, arrElems]

theorem nodup_mapKeys_buildModelMap (entries : List (String × JVal))
    (acc : List (String × List String)) (h : (mapKeys acc).Nodup) :
    (mapKeys (buildModelMap acc entries)).Nodup := by
  induction entries generalizing acc with
  | nil => simpa [buildModelMap] using h
  | cons hd tl ih =>
    obtain ⟨pn, v⟩ := hd
    cases v with
    | jarr names => exact ih _ (nodup_mapKeys_addModelNames names acc pn h)
    | jundefined => exact ih _ h
    | jnull => exact ih _ h
    | jbool b => exact ih _ h
    | jnum n => exact ih _ h
    | jstr s => exact ih _ h
    | jobj fs => exact ih _ h

theorem lookupPs_mem (mp : List (String × List String)) (m : String)
    (h : m ∈ mapKeys mp) : (m, lookupPs mp m) ∈ mp := by
  induction mp with
  | nil => simp [mapKeys] at h
  | cons hd tl ih =>
    obtain ⟨k, ps⟩ := hd
    by_cases hk : k = m
    · subst hk
      simp [lookupPs]
    · simp only [mapKeys, List.map_cons, List.mem_cons] at h
      rcases h with h | h
      · exact absurd h.symm hk
      · simp only [lookupPs, if_neg hk]
        exact List.mem_cons_of_mem _ (ih h)

theorem isNameStr_eq_true_iff (m : String) (v : JVal) :
    isNameStr m v = true ↔ v = .jstr m := by
  cases v <;> simp [isNameStr]

theorem countP_isNameStr_le_one (m : String) (xs : List JVal) (h : xs.Nodup) :
    xs.countP (isNameStr m) ≤ 1 := by
  induction xs with
  | nil => simp
  | cons hd tl ih =>
    rw [List.nodup_cons] at h
    rw [List.countP_cons]
    by_cases hhd : isNameStr m hd = true
    · have hd_eq : hd = .jstr m := (isNameStr_eq_true_iff m hd).mp hhd
      have : tl.countP (isNameStr m) = 0 := by
        rw [List.countP_eq_zero]
        intro a ha hcontra
        rw [isNameStr_eq_true_iff] at hcontra
        rw [hcontra, ← hd_eq] at ha
        exact h.1 ha
      simp [hhd, this]
    · simp only [hhd, if_neg]
      simpa using ih h.2

theorem flatMap_replicate_eq_filter_map (entries : List (String × JVal)) (m : String)
    (h : ∀ e ∈ entries, strCount e.2 m ≤ 1) :
    entries.flatMap (fun e => List.replicate (strCount e.2 m) e.1) =
      (entries.filter (fun e => (arrElems e.2).any (isNameStr m))).map Prod.fst := by
  induction entries with
  | nil => simp
  | cons hd tl ih =>
    have hhd := h hd (List.mem_cons_self hd tl)
    have htl : ∀ e ∈ tl, strCount e.2 m ≤ 1 :=
      fun e he => h e (List.mem_cons_of_mem hd he)
    rw [List.flatMap_cons, ih htl]
    by_cases hpos : 0 < strCount hd.2 m
    · have h1 : strCount hd.2 m = 1 := Nat.le_antisymm hhd hpos
      have hany : (arrElems hd.2).any (isNameStr m) = true := by
        rw [List.any_eq_true]
        exact List.countP_pos_iff.mp hpos
      have hfil : List.filter (fun e => (arrElems e.2).any (isNameStr m)) (hd :: tl) =
          hd :: List.filter (fun e => (arrElems e.2).any (isNameStr m)) tl := by
        rw [List.filter_cons, if_pos hany]
      rw [hfil, List.map_cons, h1]
      rfl
    · have h0 : strCount hd.2 m = 0 := Nat.eq_zero_of_not_pos hpos
      have hany : (arrElems hd.2).any (isNameStr m) = false := by
        rw [← Bool.not_eq_true, List.any_eq_true]
        intro hcontra
        exact hpos (List.countP_pos_iff.mpr hcontra)
      have hfil : List.filter (fun e => (arrElems e.2).any (isNameStr m)) (hd :: tl) =
          List.filter (fun e => (arrElems e.2).any (isNameStr m)) tl := by
        rw [List.filter_cons, if_neg (by simp [hany])]
      rw [hfil, h0]
      simp

theorem lookupField_eq_jundefined_of_not_mem (fs : List (String × JVal)) (k : String)
    (h : k ∉ fs.map Prod.fst) : lookupField fs k = .jundefined := by
  induction fs with
  | nil => rfl
  | cons hd tl ih =>
    obtain ⟨k', v⟩ := hd
    simp only [List.map_cons, List.mem_cons] at h
    push_neg at h
    rw [lookupField, if_neg (fun hc => h.1 hc.symm)]
    exact ih h.2

theorem normalizeModels_providerKeyed (parse : String → Option JVal)
    (fields : List (String × JVal))
    (hNoModels : "models" ∉ fields.map Prod.fst)
    (hNoData : "data" ∉ fields.map Prod.fst)
    (hPK : isProviderKeyedFormat (.jobj fields) = true) :
    normalizeModels parse (.jobj fields) = providerKeyedModels fields := by
  simp [normalizeModels, isArray, truthy, typeofObject, fieldOf,
    lookupField_eq_jundefined_of_not_mem fields "models" hNoModels,
    lookupField_eq_jundefined_of_not_mem fields "data" hNoData, hPK]

/-! ## Claim C1 -/

/-- C1 counterexample: the claim fails as frozen on two kinds of
provider-keyed payloads.  (1) `{"A": ["m", "m"]}` — every value is an array
of strings, the model `m` is referenced only by provider `A`, yet the code
appends `"A"` once per occurrence, so the record's providers are
`["A", "A"]`, not the set `{A}` in first-seen order (`["A"]`).
(2) `{"models": ["a"], "B": ["a"]}` — every value is an array of strings,
but the array-valued `models` field takes priority, so the canonical list is
the bare string list `["a"]` and no record with name `a` and attached
providers exists. -/
theorem C1_counterexample :
    normalizeModels (fun _ => none) (.jobj [("A", .jarr [.jstr "m", .jstr "m"])]) =
      [.jobj [("name", .jstr "m"), ("providers", .jarr [.jstr "A", .jstr "A"])]] ∧
    JVal.jarr [.jstr "A", .jstr "A"] ≠ .jarr [.jstr "A"] ∧
    isProviderKeyedFormat (.jobj [("models", .jarr [.jstr "a"]), ("B", .jarr [.jstr "a"])]) = true ∧
    normalizeModels (fun _ => none)
      (.jobj [("models", .jarr [.jstr "a"]), ("B", .jarr [.jstr "a"])]) = [.jstr "a"] := by
  refine ⟨rfl, ?_, rfl, rfl⟩
  simp

/-- C1 (amended): for every provider-keyed payload that has no top-level
`models`/`data` key (those are captured by the earlier detection rules) and
in which no single provider's array repeats a model name, a model name `m`
referenced by at least one provider appears exactly once in the canonical
list, and its record carries exactly the providers whose arrays mention
`m`, in first-seen order of the provider keys — regardless of which
provider's list presents `m` first. -/
theorem C1_provider_keyed_merge (parse : String → Option JVal)
    (fields : List (String × JVal)) (m : String)
    (hPK : isProviderKeyedFormat (.jobj fields) = true)
    (hNoModels : "models" ∉ fields.map Prod.fst)
    (hNoData : "data" ∉ fields.map Prod.fst)
    (hVals : ∀ e ∈ fields, (arrElems e.2).Nodup)
    (hRef : fields.any (fun e => (arrElems e.2).any (isNameStr m)) = true) :
    (normalizeModels parse (.jobj fields)).countP
        (fun r => isNameStr m (fieldOf r "name")) = 1 ∧
    JVal.jobj [("name", .jstr m),
        ("providers", .jarr ((fields.filter
          (fun e => (arrElems e.2).any (isNameStr m))).map (fun e => JVal.jstr e.1)))] ∈
      normalizeModels parse (.jobj fields) := by
  rw [normalizeModels_providerKeyed parse fields hNoModels hNoData hPK]
  have hnodupKeys : (mapKeys (buildModelMap [] fields)).Nodup :=
    nodup_mapKeys_buildModelMap fields [] (by simp [mapKeys])
  have hmem : m ∈ mapKeys (buildModelMap [] fields) :=
    (mem_mapKeys_buildModelMap fields [] m).mpr (Or.inr hRef)
  constructor
  · rw [providerKeyedModels, List.countP_map]
    have hpred : ((fun r => isNameStr m (fieldOf r "name")) ∘
        (fun e : String × List String =>
          JVal.jobj [("name", .jstr e.1), ("providers", .jarr (e.2.map .jstr))])) =
        (fun e : String × List String => e.1 == m) := by
      funext e
      simp [fieldOf, lookupField, isNameStr]
    rw [hpred]
    have : (buildModelMap [] fields).countP (fun e => e.1 == m) =
        (mapKeys (buildModelMap [] fields)).countP (· == m) := by
      rw [mapKeys, List.countP_map]
      rfl
    rw [this]
    exact List.count_eq_one_of_mem hnodupKeys hmem
  · have hentry : (m, lookupPs (buildModelMap [] fields) m) ∈ buildModelMap [] fields :=
      lookupPs_mem _ m hmem
    have hcounts : ∀ e ∈ fields, strCount e.2 m ≤ 1 :=
      fun e he => countP_isNameStr_le_one m (arrElems e.2) (hVals e he)
    have hps : lookupPs (buildModelMap [] fields) m =
        (fields.filter (fun e => (arrElems e.2).any (isNameStr m))).map Prod.fst := by
      rw [lookupPs_buildModelMap, flatMap_replicate_eq_filter_map fields m hcounts]
      rfl
    have := List.mem_map_of_mem
      (fun e : String × List String =>
        JVal.jobj [("name", .jstr e.1), ("providers", .jarr (e.2.map .jstr))]) hentry
    rw [hps] at this
    rw [providerKeyedModels]
    simpa [List.map_map, Function.comp] using this

/-- Witness for `C1_provider_keyed_merge` at the spec's scenario-E payload
`{"A": ["m"], "B": ["m", "x"], "C": ["m"]}` and model name `m`. -/
theorem C1_provider_keyed_merge_witness :
    (normalizeModels (fun _ => none)
        (.jobj [("A", .jarr [.jstr "m"]), ("B", .jarr [.jstr "m", .jstr "x"]),
                ("C", .jarr [.jstr "m"])])).countP
        (fun r => isNameStr "m" (fieldOf r "name")) = 1 ∧
    JVal.jobj [("name", .jstr "m"),
        ("providers", .jarr (([("A", JVal.jarr [.jstr "m"]), ("B", .jarr [.jstr "m", .jstr "x"]),
            ("C", .jarr [.jstr "m"])].filter
          (fun e => (arrElems e.2).any (isNameStr "m"))).map (fun e => JVal.jstr e.1)))] ∈
      normalizeModels (fun _ => none)
        (.jobj [("A", .jarr [.jstr "m"]), ("B", .jarr [.jstr "m", .jstr "x"]),
                ("C", .jarr [.jstr "m"])]) := by
  refine C1_provider_keyed_merge (fun _ => none) _ "m" rfl (by decide) (by decide)
    ?_ rfl
  intro e he
  simp only [List.mem_cons, List.not_mem_nil, or_false] at he
  rcases he with h | h | h <;> subst h <;> simp [arrElems]

/-! ## Claim C2 -/

theorem truthy_and_isArray_fieldOf (v : JVal) (k : String) :
    (truthy v && isArray (fieldOf v k)) = specHasArrayField v k := by
  cases v <;> simp [truthy, isArray, fieldOf, specHasArrayField]

/-- C2: shape detection is first-match-wins in the fixed priority — array,
object with array-valued `models`, object with array-valued `data`, string
(parsed, with only rules (1)–(3) re-applied, so a string parsing to a
provider-keyed object without `models`/`data` arrays yields the empty
list), provider-keyed object, unrecognized.  Stated as: the source
normalization equals the spec's detection cascade for every payload and
every behaviour of `JSON.parse`; an object with both an array-valued
`models` field and provider-keyed structure is handled by the
`models`-field rule; a string parsing to a provider-keyed object yields
`[]`. -/
theorem C2_detection_order (parse : String → Option JVal) :
    (∀ v, normalizeModels parse v = specDetectionOrder parse v) ∧
    (∀ fields ms, isProviderKeyedFormat (.jobj fields) = true →
      lookupField fields "models" = .jarr ms →
      normalizeModels parse (.jobj fields) = ms) ∧
    (∀ s obj, parse s = some (.jobj obj) →
      isProviderKeyedFormat (.jobj obj) = true →
      isArray (lookupField obj "models") = false →
      isArray (lookupField obj "data") = false →
      normalizeModels parse (.jstr s) = []) := by
  refine ⟨?_, ?_, ?_⟩
  · intro v
    cases v with
    | jarr xs => simp [normalizeModels, specDetectionOrder, isArray, arrElems]
    | jstr s =>
      cases hp : parse s with
      | some parsed =>
        have lhs : normalizeModels parse (.jstr s) = normalizeParsed parsed := by
          simp [normalizeModels, isArray, truthy, fieldOf, hp]
        have rhs : specDetectionOrder parse (.jstr s) =
            (if isArray parsed then arrElems parsed
             else if specHasArrayField parsed "models" then arrElems (fieldOf parsed "models")
             else if specHasArrayField parsed "data" then arrElems (fieldOf parsed "data")
             else []) := by
          simp [specDetectionOrder, hp]
        rw [lhs, rhs, normalizeParsed, truthy_and_isArray_fieldOf, truthy_and_isArray_fieldOf]
      | none =>
        simp [normalizeModels, specDetectionOrder, isArray, truthy, fieldOf, hp]
    | jobj fs =>
      simp [normalizeModels, specDetectionOrder, specHasArrayField, isArray, truthy,
        fieldOf, typeofObject]
    | jnull => simp [normalizeModels, specDetectionOrder, isArray, truthy, fieldOf,
        specHasArrayField, isProviderKeyedFormat, typeofObject]
    | jundefined => simp [normalizeModels, specDetectionOrder, isArray, truthy, fieldOf,
        specHasArrayField, isProviderKeyedFormat, typeofObject]
    | jbool b => simp [normalizeModels, specDetectionOrder, isArray, truthy, fieldOf,
        specHasArrayField, isProviderKeyedFormat, typeofObject]
    | jnum n => simp [normalizeModels, specDetectionOrder, isArray, truthy, fieldOf,
        specHasArrayField, isProviderKeyedFormat, typeofObject]
  · intro fields ms _ hlookup
    simp [normalizeModels, isArray, truthy, fieldOf, hlookup, arrElems]
  · intro s obj hp _ hm hd
    have lhs : normalizeModels parse (.jstr s) = normalizeParsed (.jobj obj) := by
      simp [normalizeModels, isArray, truthy, fieldOf, hp]
    rw [lhs, normalizeParsed]
    simp only [show truthy (JVal.jobj obj) = true from rfl,
      show isArray (JVal.jobj obj) = false from rfl,
      show fieldOf (JVal.jobj obj) "models" = lookupField obj "models" from rfl,
      show fieldOf (JVal.jobj obj) "data" = lookupField obj "data" from rfl,
      Bool.true_and, hm, hd]
    simp

/-- Witness for `C2_detection_order`: the `models`-field rule beats the
provider-keyed rule on `{"models": ["x"], "A": ["m"]}`, and a string
parsing to the provider-keyed object `{"A": ["m"]}` normalizes to the empty
list. -/
theorem C2_detection_order_witness :
    normalizeModels (fun _ => some (.jobj [("A", .jarr [.jstr "m"])]))
      (.jobj [("models", .jarr [.jstr "x"]), ("A", .jarr [.jstr "m"])]) = [.jstr "x"] ∧
    normalizeModels (fun _ => some (.jobj [("A", .jarr [.jstr "m"])])) (.jstr "payload") = [] := by
  constructor
  · exact (C2_detection_order _).2.1 _ [.jstr "x"] rfl rfl
  · exact (C2_detection_order _).2.2 "payload" _ rfl rfl rfl rfl

/-! ## Claim C4 -/

theorem strTake_length_le (s : String) (max : Nat) : (strTake s max).length ≤ max := by
  have : (strTake s max).length = (s.data.take max).length := rfl
  rw [this, List.length_take]
  exact Nat.min_le_left _ _

theorem truncated_length_le (s : String) (max : Nat) :
    (if s.length > max then strTake s max ++ "... (truncated)" else s).length ≤ max + 15 := by
  by_cases h : s.length > max
  · rw [if_pos h, String.length_append]
    have h1 := strTake_length_le s max
    have h2 : ("... (truncated)" : String).length = 15 := by decide
    omega
  · rw [if_neg h]
    omega

/-- C4: normalization is total and yields the empty canonical list on every
non-array, non-object, non-string payload and on every unparseable string;
and `safeStringify` is total and truncates its result to the fixed bound
`max + 15` characters (`max` payload characters plus the
`"... (truncated)"` marker) for every input whatsoever. -/
theorem C4_normalization_never_raises (parse : String → Option JVal) :
    normalizeModels parse .jundefined = [] ∧
    normalizeModels parse .jnull = [] ∧
    (∀ b, normalizeModels parse (.jbool b) = []) ∧
    (∀ n : Int, normalizeModels parse (.jnum n) = []) ∧
    (∀ s, parse s = none → normalizeModels parse (.jstr s) = []) ∧
    (∀ v max, (safeStringify v max).length ≤ max + 15) := by
  refine ⟨rfl, rfl, ?_, ?_, ?_, ?_⟩
  · intro b
    simp [normalizeModels, isArray, truthy, fieldOf, typeofObject]
  · intro n
    simp [normalizeModels, isArray, truthy, fieldOf, typeofObject]
  · intro s hs
    simp [normalizeModels, isArray, truthy, fieldOf, hs]
  · intro v max
    cases v with
    | jstr s => exact truncated_length_le s max
    | jundefined =>
      have : safeStringify .jundefined max = "undefined" := rfl
      rw [this]
      have : ("undefined" : String).length = 9 := by decide
      omega
    | jnull => exact truncated_length_le "null" max
    | jbool b =>
      cases b
      · exact truncated_length_le "false" max
      · exact truncated_length_le "true" max
    | jnum n => exact truncated_length_le (toString n) max
    | jarr xs => exact truncated_length_le ("[" ++ jsonArrItems xs ++ "]") max
    | jobj fs => exact truncated_length_le ("\x7b" ++ jsonObjItems fs ++ "\x7d") max

/-- Witness for `C4_normalization_never_raises` with the always-failing
parse, evaluating the unparseable-string clause at `"not json"` and the
truncation bound at a `null` payload with bound 2. -/
theorem C4_normalization_never_raises_witness :
    normalizeModels (fun _ => none) (.jstr "not json") = [] ∧
    (safeStringify .jnull 2).length ≤ 2 + 15 := by
  exact ⟨(C4_normalization_never_raises (fun _ => none)).2.2.2.2.1 "not json" rfl,
    (C4_normalization_never_raises (fun _ => none)).2.2.2.2.2 .jnull 2⟩

/-! ## Claim C7 -/

/-- C7 counterexample: a `null` record reaching the filter stage does not
get an empty provider list and is not merely removed — the property read
`model.providers` itself throws (JavaScript `TypeError` on a `null`
receiver), aborting the filter. -/
theorem C7_counterexample :
    recordProvidersE .jnull = .error () ∧
    filterModelsE "openaiapi" [.jnull] = .error () :=
  ⟨rfl, rfl⟩

/-- C7 (amended): for every record that is not `null`/`undefined`, the
`providers` field is tolerated in three shapes — an array is used as-is, a
single string becomes a one-element sequence, an object contributes its
keys — and any other field shape (absent/`undefined`, `null`, boolean,
number) yields the empty provider list, which never matches any key.  A
`null` or `undefined` record itself makes the filter callback throw instead
(see the counterexample). -/
theorem C7_providers_tolerance (model : JVal) (key : String)
    (hnn : model ≠ .jnull) (hnu : model ≠ .jundefined) :
    (∀ xs, fieldOf model "providers" = .jarr xs → recordProvidersE model = .ok xs) ∧
    (∀ s, fieldOf model "providers" = .jstr s → recordProvidersE model = .ok [.jstr s]) ∧
    (∀ fs, fieldOf model "providers" = .jobj fs →
      recordProvidersE model = .ok (fs.map (fun kv => JVal.jstr kv.1))) ∧
    ((fieldOf model "providers" = .jundefined ∨ fieldOf model "providers" = .jnull ∨
        (∃ b, fieldOf model "providers" = .jbool b) ∨
        (∃ n, fieldOf model "providers" = .jnum n)) →
      recordProvidersE model = .ok [] ∧ providersMatch key [] = false) := by
  have hpg : propGet model "providers" = .ok (fieldOf model "providers") := by
    cases model with
    | jnull => exact absurd rfl hnn
    | jundefined => exact absurd rfl hnu
    | jbool b => rfl
    | jnum n => rfl
    | jstr s => rfl
    | jarr xs => rfl
    | jobj fs => rfl
  have hre : recordProvidersE model =
      .ok (if isArray (fieldOf model "providers") then arrElems (fieldOf model "providers")
        else if truthy (fieldOf model "providers") && typeofObject (fieldOf model "providers") then
          match fieldOf model "providers" with
          | .jobj fs => fs.map (fun kv => .jstr kv.1)
          | _ => []
        else if isString (fieldOf model "providers") then [fieldOf model "providers"]
        else []) := by
    rw [recordProvidersE, hpg]
  refine ⟨?_, ?_, ?_, ?_⟩
  · intro xs h
    rw [hre, h]
    simp [isArray, arrElems]
  · intro s h
    rw [hre, h]
    simp [isArray, truthy, typeofObject, isString]
  · intro fs h
    rw [hre, h]
    simp [isArray, truthy, typeofObject]
  · intro h
    refine ⟨?_, rfl⟩
    rcases h with h | h | ⟨b, h⟩ | ⟨n, h⟩ <;> rw [hre, h] <;>
      simp [isArray, truthy, typeofObject, isString]

/-- Witness for `C7_providers_tolerance`: a record without a `providers`
field gets the empty provider list and never matches, and a record with a
string `providers` field gets the one-element list. -/
theorem C7_providers_tolerance_witness :
    recordProvidersE (.jobj [("name", .jstr "m")]) = .ok [] ∧
    providersMatch "openaiapi" [] = false ∧
    recordProvidersE (.jobj [("providers", .jstr "OpenaiAPI")]) = .ok [.jstr "OpenaiAPI"] := by
  refine ⟨?_, ?_, ?_⟩
  · exact ((C7_providers_tolerance (.jobj [("name", .jstr "m")]) "openaiapi"
      (by simp) (by simp)).2.2.2 (Or.inl rfl)).1
  · exact ((C7_providers_tolerance (.jobj [("name", .jstr "m")]) "openaiapi"
      (by simp) (by simp)).2.2.2 (Or.inl rfl)).2
  · exact (C7_providers_tolerance (.jobj [("providers", .jstr "OpenaiAPI")]) "openaiapi"
      (by simp) (by simp)).2.1 "OpenaiAPI" rfl

/-! ## Claim C5 -/

theorem filterModelsE_ok_eq_filter (key : String) (models f : List JVal)
    (h : filterModelsE key models = .ok f) :
    f = models.filter (fun m =>
      match recordProvidersE m with
      | .ok ps => providersMatch key ps
      | .error _ => false) := by
  induction models generalizing f with
  | nil =>
    rw [filterModelsE] at h
    simp only [Except.ok.injEq] at h
    rw [← h]
    rfl
  | cons m rest ih =>
    rw [filterModelsE] at h
    cases hp : recordProvidersE m with
    | error e => rw [hp] at h; simp at h
    | ok ps =>
      rw [hp] at h
      dsimp only at h
      cases hrest : filterModelsE key rest with
      | error e => rw [hrest] at h; simp at h
      | ok rest' =>
        rw [hrest] at h
        dsimp only at h
        rw [List.filter_cons, hp]
        dsimp only
        by_cases hm : providersMatch key ps = true
        · rw [if_pos hm] at h
          simp only [Except.ok.injEq] at h
          rw [← h, if_pos hm, ih rest' hrest]
        · rw [if_neg hm] at h
          simp only [Except.ok.injEq] at h
          rw [← h, if_neg hm, ih rest' hrest]

/-- C5: filtering by the configured provider key is case-insensitive
(ASCII): given a successful filter pass with key `toLowerCase(cfgRaw)`
(line 29 lowercases the configured value), a record of the canonical list
survives iff some entry of its normalized provider list string-converts and
lowercases to the lowercased configured key — e.g. record provider
`"OpenaiAPI"` against configured key `"openaiapi"`; records with no
case-insensitive match are removed. -/
theorem C5_filter_case_insensitive (models : List JVal) (cfgRaw : String)
    (f : List JVal) (r : JVal)
    (hf : filterModelsE (strToLower cfgRaw) models = .ok f) (hr : r ∈ models) :
    (r ∈ f ↔ ∃ ps, recordProvidersE r = .ok ps ∧
      ∃ p ∈ ps, strToLower (jsToString p) = strToLower cfgRaw) := by
  rw [filterModelsE_ok_eq_filter _ _ _ hf, List.mem_filter]
  cases hrp : recordProvidersE r with
  | error e => simp [hrp]
  | ok ps =>
    simp only [hrp, hr, true_and, Except.ok.injEq]
    constructor
    · intro hmatch
      refine ⟨ps, rfl, ?_⟩
      rw [providersMatch, List.any_eq_true] at hmatch
      obtain ⟨p, hp, hpe⟩ := hmatch
      exact ⟨p, hp, by simpa using hpe⟩
    · rintro ⟨ps', hps', p, hp, hpe⟩
      rw [hps', providersMatch, List.any_eq_true]
      exact ⟨p, hp, by simpa using hpe⟩

/-- Witness for `C5_filter_case_insensitive`: the record with provider
`"OpenaiAPI"` against configured key `"openaiapi"`. -/
theorem C5_filter_case_insensitive_witness :
    ((JVal.jobj [("name", .jstr "gpt-4"), ("providers", .jarr [.jstr "OpenaiAPI"])]) ∈
        [JVal.jobj [("name", .jstr "gpt-4"), ("providers", .jarr [.jstr "OpenaiAPI"])]] ↔
      ∃ ps, recordProvidersE (.jobj [("name", .jstr "gpt-4"),
          ("providers", .jarr [.jstr "OpenaiAPI"])]) = .ok ps ∧
        ∃ p ∈ ps, strToLower (jsToString p) = strToLower "openaiapi") :=
  C5_filter_case_insensitive
    [JVal.jobj [("name", .jstr "gpt-4"), ("providers", .jarr [.jstr "OpenaiAPI"])]]
    "openaiapi"
    [JVal.jobj [("name", .jstr "gpt-4"), ("providers", .jarr [.jstr "OpenaiAPI"])]]
    (JVal.jobj [("name", .jstr "gpt-4"), ("providers", .jarr [.jstr "OpenaiAPI"])])
    rfl (List.mem_singleton.mpr rfl)

/-! ## Claim C3 -/

theorem noDataMsg_ne_noMatchMsg (pk up s pk' up' s' : String) :
    noDataMsg pk up s ≠ noMatchMsg pk' up' s' := by
  intro h
  rw [noDataMsg, noMatchMsg] at h
  have hd := congrArg String.data h
  simp only [String.data_append, List.append_assoc] at hd
  have h10 := congrArg (fun l => l[10]?) hd
  simp only at h10
  rw [@List.getElem?_append_left Char
      ['N', 'o', ' ', 'm', 'o', 'd', 'e', 'l', 's', ' ', 'f', 'o', 'u', 'n', 'd', ' ', 'f', 'o', 'r', ' ', 'p', 'r', 'o', 'v', 'i', 'd', 'e', 'r', ' ', '\x27']
      (pk.data ++ (['\x27', ' ', 'f', 'r', 'o', 'm', ' ', 'u', 'p', 's', 't', 'r', 'e', 'a', 'm', ' '] ++ (up.data ++ (['.', ' ', 'U', 'p', 's', 't', 'r', 'e', 'a', 'm', ' ', 'r', 'e', 's', 'p', 'o', 'n', 's', 'e', ' ', 's', 'h', 'a', 'p', 'e', ':', ' '] ++ s.data)))) 10 (by decide),
    @List.getElem?_append_left Char
      ['N', 'o', ' ', 'm', 'o', 'd', 'e', 'l', 's', ' ', 'm', 'a', 't', 'c', 'h', 'e', 'd', ' ', 'p', 'r', 'o', 'v', 'i', 'd', 'e', 'r', ' ', '\x27']
      (pk'.data ++ (['\x27', ' ', 'i', 'n', ' ', 'u', 'p', 's', 't', 'r', 'e', 'a', 'm', ' '] ++ (up'.data ++ (['.', ' ', 'S', 'a', 'm', 'p', 'l', 'e', ' ', 'u', 'p', 's', 't', 'r', 'e', 'a', 'm', ' ', 'm', 'o', 'd', 'e', 'l', 's', ':', ' '] ++ s'.data)))) 10 (by decide)] at h10
  exact absurd h10 (by decide)

/-- The `getModels` pipeline written out (the `let` bindings of the
definition zeta-reduced). -/
theorem getModels_eq (parse : String → Option JVal) (cfg up : String) (raw : JVal) :
    getModels parse cfg up raw =
      (if (normalizeModels parse raw).length = 0 then
        .error (.notFound (noDataMsg (strToLower cfg) up (safeStringify raw 1000)))
      else
        match filterModelsE (strToLower cfg) (normalizeModels parse raw) with
        | .error _ => .error .typeError
        | .ok filteredModels =>
          if filteredModels.length = 0 then
            .error (.notFound (noMatchMsg (strToLower cfg) up
              (safeStringify (.jarr ((normalizeModels parse raw).take 5)) 1000)))
          else
            .ok (.jobj [("object", .jstr "list"),
                        ("data", .jarr (filteredModels.map renderModel))])) := rfl

/-- C3: the models operation raises a `NotFoundException` in exactly two
circumstances — (a) the canonical list is empty after normalization,
(b) the filter succeeds but removes every record — the two messages embed
the truncated raw payload (a) resp. the truncated first five canonical
records (b) and can never coincide, and a successful result always carries
a non-empty `data` array.  (A third, distinct failure class — the
`TypeError` on a nullish record, see C7 — is not a `NotFoundException`.) -/
theorem C3_notfound_two_circumstances (parse : String → Option JVal)
    (cfgProvider upstream : String) (respData : JVal) :
    ((∃ msg, getModels parse cfgProvider upstream respData = .error (.notFound msg)) ↔
      (normalizeModels parse respData = [] ∨
        (normalizeModels parse respData ≠ [] ∧
          filterModelsE (strToLower cfgProvider) (normalizeModels parse respData) = .ok []))) ∧
    (normalizeModels parse respData = [] →
      getModels parse cfgProvider upstream respData =
        .error (.notFound (noDataMsg (strToLower cfgProvider) upstream
          (safeStringify respData 1000)))) ∧
    (normalizeModels parse respData ≠ [] →
      filterModelsE (strToLower cfgProvider) (normalizeModels parse respData) = .ok [] →
      getModels parse cfgProvider upstream respData =
        .error (.notFound (noMatchMsg (strToLower cfgProvider) upstream
          (safeStringify (.jarr ((normalizeModels parse respData).take 5)) 1000)))) ∧
    (∀ pk1 up1 s1 pk2 up2 s2, noDataMsg pk1 up1 s1 ≠ noMatchMsg pk2 up2 s2) ∧
    (∀ out, getModels parse cfgProvider upstream respData = .ok out →
      ∃ l, fieldOf out "data" = .jarr l ∧ l ≠ []) := by
  have hG := getModels_eq parse cfgProvider upstream respData
  by_cases hms : normalizeModels parse respData = []
  · rw [if_pos (by simp [hms])] at hG
    refine ⟨?_, fun _ => hG, fun hne _ => absurd hms hne, noDataMsg_ne_noMatchMsg, ?_⟩
    · constructor
      · intro _
        exact Or.inl hms
      · intro _
        exact ⟨_, hG⟩
    · intro out hout
      rw [hG] at hout
      exact absurd hout (by simp)
  · rw [if_neg (by simp [hms])] at hG
    cases hfil : filterModelsE (strToLower cfgProvider) (normalizeModels parse respData) with
    | error e =>
      rw [hfil] at hG
      dsimp only at hG
      refine ⟨?_, fun h => absurd h hms, ?_, noDataMsg_ne_noMatchMsg, ?_⟩
      · constructor
        · rintro ⟨msg, hmsg⟩
          rw [hG] at hmsg
          exact absurd hmsg (by simp)
        · rintro (h | ⟨_, h⟩)
          · exact absurd h hms
          · exact absurd h (by simp)
      · intro _ h
        exact absurd h (by simp)
      · intro out hout
        rw [hG] at hout
        exact absurd hout (by simp)
    | ok f =>
      rw [hfil] at hG
      dsimp only at hG
      by_cases hf : f = []
      · subst hf
        rw [if_pos (by simp)] at hG
        refine ⟨?_, fun h => absurd h hms, fun _ _ => hG, noDataMsg_ne_noMatchMsg, ?_⟩
        · exact ⟨fun _ => Or.inr ⟨hms, rfl⟩, fun _ => ⟨_, hG⟩⟩
        · intro out hout
          rw [hG] at hout
          exact absurd hout (by simp)
      · rw [if_neg (by simp [hf])] at hG
        refine ⟨?_, fun h => absurd h hms, ?_, noDataMsg_ne_noMatchMsg, ?_⟩
        · constructor
          · rintro ⟨msg, hmsg⟩
            rw [hG] at hmsg
            exact absurd hmsg (by simp)
          · rintro (h | ⟨_, h⟩)
            · exact absurd h hms
            · exact absurd (by simpa using h) hf
        · intro _ h
          exact absurd (by simpa using h) hf
        · intro out hout
          rw [hG] at hout
          simp only [Except.ok.injEq] at hout
          refine ⟨f.map renderModel, ?_, by simpa using hf⟩
          rw [← hout]
          rfl

/-- Witness for `C3_notfound_two_circumstances` at the provider-keyed
payload `{"OpenaiAPI": ["gpt-4"]}` with configured provider
`"NonExistentProvider"` (the spec's scenario D): the operation fails with
the no-match `NotFoundException`. -/
theorem C3_notfound_two_circumstances_witness :
    getModels (fun _ => none) "NonExistentProvider" "http://u"
        (.jobj [("OpenaiAPI", .jarr [.jstr "gpt-4"])]) =
      .error (.notFound (noMatchMsg (strToLower "NonExistentProvider") "http://u"
        (safeStringify (.jarr ((normalizeModels (fun _ => none)
          (.jobj [("OpenaiAPI", .jarr [.jstr "gpt-4"])])).take 5)) 1000))) :=
  (C3_notfound_two_circumstances (fun _ => none) "NonExistentProvider" "http://u"
      (.jobj [("OpenaiAPI", .jarr [.jstr "gpt-4"])])).2.2.1
    (by intro h; exact absurd (congrArg List.length h) (by decide)) rfl

/-! ## Claim C6 -/

theorem lookupField_perm {fs fs' : List (String × JVal)} (hperm : fs.Perm fs') (k : String) :
    (fs.map Prod.fst).Nodup → lookupField fs k = lookupField fs' k := by
  induction hperm with
  | nil => intro _; rfl
  | cons x h ih =>
    intro hnd
    obtain ⟨kx, vx⟩ := x
    simp only [List.map_cons, List.nodup_cons] at hnd
    by_cases hk : kx = k
    · simp [lookupField, hk]
    · rw [lookupField, if_neg hk, lookupField, if_neg hk]
      exact ih hnd.2
  | swap x y l =>
    intro hnd
    obtain ⟨kx, vx⟩ := x
    obtain ⟨ky, vy⟩ := y
    simp only [List.map_cons, List.nodup_cons, List.mem_cons] at hnd
    have hxy : ky ≠ kx := fun hc => hnd.1 (Or.inl hc)
    by_cases hk : ky = k
    · subst hk
      rw [lookupField, if_pos rfl, lookupField, if_neg (fun hc => hxy hc.symm),
        lookupField, if_pos rfl]
    · by_cases hx : kx = k
      · subst hx
        rw [lookupField, if_neg hk, lookupField, if_pos rfl, lookupField, if_pos rfl]
      · rw [lookupField, if_neg hk, lookupField, if_neg hx, lookupField, if_neg hx,
          lookupField, if_neg hk]
  | trans h₁ h₂ ih₁ ih₂ =>
    intro hnd
    rw [ih₁ hnd, ih₂ (((h₁.map Prod.fst).nodup_iff).mp hnd)]

theorem mapKeys_buildModelMap_perm (fields fields' : List (String × JVal))
    (hperm : fields.Perm fields') :
    (mapKeys (buildModelMap [] fields)).Perm (mapKeys (buildModelMap [] fields')) := by
  rw [List.perm_ext_iff_of_nodup (nodup_mapKeys_buildModelMap _ _ (by simp [mapKeys]))
    (nodup_mapKeys_buildModelMap _ _ (by simp [mapKeys]))]
  intro m
  rw [mem_mapKeys_buildModelMap, mem_mapKeys_buildModelMap]
  simp only [mapKeys, List.map_nil, List.not_mem_nil, false_or]
  rw [List.any_eq_true, List.any_eq_true]
  constructor
  · rintro ⟨e, he, hp⟩
    exact ⟨e, hperm.mem_iff.mp he, hp⟩
  · rintro ⟨e, he, hp⟩
    exact ⟨e, hperm.mem_iff.mpr he, hp⟩

theorem modelNames_providerKeyedModels (fields : List (String × JVal)) :
    modelNames (providerKeyedModels fields) =
      (mapKeys (buildModelMap [] fields)).map JVal.jstr := by
  rw [modelNames, providerKeyedModels, mapKeys, List.map_map, List.map_map]
  rfl

theorem isProviderKeyedFormat_perm (fields fields' : List (String × JVal))
    (hperm : fields.Perm fields')
    (h : isProviderKeyedFormat (.jobj fields) = true) :
    isProviderKeyedFormat (.jobj fields') = true := by
  rw [isProviderKeyedFormat, List.all_eq_true] at h ⊢
  intro e he
  exact h e (hperm.mem_iff.mpr he)

theorem normalizeModels_jobj (parse : String → Option JVal) (fs : List (String × JVal)) :
    normalizeModels parse (.jobj fs) =
      (if isArray (lookupField fs "models") then arrElems (lookupField fs "models")
       else if isArray (lookupField fs "data") then arrElems (lookupField fs "data")
       else if isProviderKeyedFormat (.jobj fs) then providerKeyedModels fs
       else []) := by
  simp [normalizeModels, isArray, truthy, fieldOf, typeofObject]

/-- C6: for every provider-keyed payload with unique keys (JavaScript
object semantics), the model-name view of the canonical list — and hence the
number of unique models and the set of model names — is invariant under any
permutation of the payload's provider keys. -/
theorem C6_perm_invariance (parse : String → Option JVal)
    (fields fields' : List (String × JVal))
    (hKeys : (fields.map Prod.fst).Nodup)
    (hPK : isProviderKeyedFormat (.jobj fields) = true)
    (hperm : fields.Perm fields') :
    (modelNames (normalizeModels parse (.jobj fields))).Perm
      (modelNames (normalizeModels parse (.jobj fields'))) ∧
    (normalizeModels parse (.jobj fields)).length =
      (normalizeModels parse (.jobj fields')).length := by
  have hlfm := lookupField_perm hperm "models" hKeys
  have hlfd := lookupField_perm hperm "data" hKeys
  have hPK' := isProviderKeyedFormat_perm fields fields' hperm hPK
  rw [normalizeModels_jobj, normalizeModels_jobj, ← hlfm, ← hlfd]
  by_cases hm : isArray (lookupField fields "models") = true
  · rw [if_pos hm, if_pos hm]
    exact ⟨List.Perm.refl _, rfl⟩
  · rw [if_neg hm, if_neg hm]
    by_cases hd : isArray (lookupField fields "data") = true
    · rw [if_pos hd, if_pos hd]
      exact ⟨List.Perm.refl _, rfl⟩
    · rw [if_neg hd, if_neg hd, if_pos hPK, if_pos hPK']
      have hkp := mapKeys_buildModelMap_perm fields fields' hperm
      constructor
      · rw [modelNames_providerKeyedModels, modelNames_providerKeyedModels]
        exact hkp.map JVal.jstr
      · have := hkp.length_eq
        simp only [mapKeys, List.length_map] at this
        simp only [providerKeyedModels, List.length_map]
        exact this

/-- Witness for `C6_perm_invariance`: swapping the two providers of the
spec's scenario-A payload leaves the model-name view a permutation and the
unique-model count unchanged. -/
theorem C6_perm_invariance_witness :
    (modelNames (normalizeModels (fun _ => none)
        (.jobj [("Anthropic", .jarr [.jstr "claude-3-opus", .jstr "claude-3-sonnet"]),
                ("OpenaiAPI", .jarr [.jstr "gpt-4", .jstr "claude-3-opus"])]))).Perm
      (modelNames (normalizeModels (fun _ => none)
        (.jobj [("OpenaiAPI", .jarr [.jstr "gpt-4", .jstr "claude-3-opus"]),
                ("Anthropic", .jarr [.jstr "claude-3-opus", .jstr "claude-3-sonnet"])]))) ∧
    (normalizeModels (fun _ => none)
        (.jobj [("Anthropic", .jarr [.jstr "claude-3-opus", .jstr "claude-3-sonnet"]),
                ("OpenaiAPI", .jarr [.jstr "gpt-4", .jstr "claude-3-opus"])])).length =
      (normalizeModels (fun _ => none)
        (.jobj [("OpenaiAPI", .jarr [.jstr "gpt-4", .jstr "claude-3-opus"]),
                ("Anthropic", .jarr [.jstr "claude-3-opus", .jstr "claude-3-sonnet"])])).length :=
  C6_perm_invariance (fun _ => none)
    [("Anthropic", .jarr [.jstr "claude-3-opus", .jstr "claude-3-sonnet"]),
     ("OpenaiAPI", .jarr [.jstr "gpt-4", .jstr "claude-3-opus"])]
    [("OpenaiAPI", .jarr [.jstr "gpt-4", .jstr "claude-3-opus"]),
     ("Anthropic", .jarr [.jstr "claude-3-opus", .jstr "claude-3-sonnet"])]
    (by decide) rfl (List.Perm.swap _ _ _)

/-! ## Claim C8 -/

/-- C8: every successful `getModels` result is exactly
`{object: "list", data: ...}`, where each surviving record of the filtered
list, in preserved order, renders as `{id: record.name, object: "model",
created: 0, owned_by: "", image: record.image || false, provider: true}`;
`created: 0`, `owned_by: ""` and `provider: true` are literals of the
rendering, independent of the upstream data. -/
theorem C8_rendering (parse : String → Option JVal) (cfgProvider upstream : String)
    (respData : JVal) (out : JVal)
    (h : getModels parse cfgProvider upstream respData = .ok out) :
    ∃ f, filterModelsE (strToLower cfgProvider) (normalizeModels parse respData) = .ok f ∧
      f ≠ [] ∧
      out = .jobj [("object", .jstr "list"),
        ("data", .jarr (f.map (fun record => JVal.jobj
          [("id", fieldOf record "name"),
           ("object", .jstr "model"),
           ("created", .jnum 0),
           ("owned_by", .jstr ""),
           ("image", if truthy (fieldOf record "image") then fieldOf record "image"
                     else .jbool false),
           ("provider", .jbool true)])))] := by
  have hG := getModels_eq parse cfgProvider upstream respData
  by_cases hms : (normalizeModels parse respData).length = 0
  · rw [if_pos hms] at hG
    rw [hG] at h
    exact absurd h (by simp)
  · rw [if_neg hms] at hG
    cases hfil : filterModelsE (strToLower cfgProvider) (normalizeModels parse respData) with
    | error e =>
      rw [hfil] at hG
      dsimp only at hG
      rw [hG] at h
      exact absurd h (by simp)
    | ok f =>
      rw [hfil] at hG
      dsimp only at hG
      by_cases hf : f.length = 0
      · rw [if_pos hf] at hG
        rw [hG] at h
        exact absurd h (by simp)
      · rw [if_neg hf] at hG
        rw [hG] at h
        simp only [Except.ok.injEq] at h
        refine ⟨f, rfl, by simpa [List.length_eq_zero] using hf, ?_⟩
        rw [← h]
        rfl

/-- Witness for `C8_rendering` at the spec's scenario-B payload
`{"OpenaiAPI": ["gpt-4", "gpt-3.5-turbo"]}` with provider `"OpenaiAPI"`. -/
theorem C8_rendering_witness :
    ∃ f, filterModelsE (strToLower "OpenaiAPI") (normalizeModels (fun _ => none)
        (.jobj [("OpenaiAPI", .jarr [.jstr "gpt-4", .jstr "gpt-3.5-turbo"])])) = .ok f ∧
      f ≠ [] ∧
      JVal.jobj [("object", .jstr "list"),
        ("data", .jarr
          [.jobj [("id", .jstr "gpt-4"), ("object", .jstr "model"), ("created", .jnum 0),
                  ("owned_by", .jstr ""), ("image", .jbool false), ("provider", .jbool true)],
           .jobj [("id", .jstr "gpt-3.5-turbo"), ("object", .jstr "model"),
                  ("created", .jnum 0), ("owned_by", .jstr ""), ("image", .jbool false),
                  ("provider", .jbool true)]])] =
      .jobj [("object", .jstr "list"),
        ("data", .jarr (f.map (fun record => JVal.jobj
          [("id", fieldOf record "name"),
           ("object", .jstr "model"),
           ("created", .jnum 0),
           ("owned_by", .jstr ""),
           ("image", if truthy (fieldOf record "image") then fieldOf record "image"
                     else .jbool false),
           ("provider", .jbool true)])))] :=
  C8_rendering (fun _ => none) "OpenaiAPI" "http://u"
    (.jobj [("OpenaiAPI", .jarr [.jstr "gpt-4", .jstr "gpt-3.5-turbo"])]) _ rfl

/-! ## Claim C9 -/

/-- C9 counterexample: with an Authorization header present on the inbound
request, the providers upstream call still carries no headers at all (the
service method never reads the inbound headers), and a present-but-empty
Authorization value is not forwarded on the models call either (the code
tests JavaScript truthiness, and the empty string is falsy). -/
theorem C9_counterexample :
    (getProvidersRequest "http://u").headers = [] ∧
    (getModelsRequest "http://u" [("authorization", .jstr "")]).headers = [] :=
  ⟨rfl, rfl⟩

/-- C9 (amended): a non-empty Authorization header on the inbound request is
forwarded verbatim to the models and chat-completions upstream calls; when
it is absent or empty none is sent there; the providers upstream call never
carries an Authorization header. -/
theorem C9_auth_passthrough (upstream : String) (hs : List (String × JVal))
    (provider body : JVal) :
    (∀ a : String, lookupField hs "authorization" = .jstr a → a ≠ "" →
      (getModelsRequest upstream hs).headers = [("Authorization", .jstr a)] ∧
      (postCompletions upstream provider body hs).2.headers =
        [("Accept", .jstr "application/json"), ("Content-Type", .jstr "application/json"),
         ("Authorization", .jstr a)]) ∧
    ((lookupField hs "authorization" = .jundefined ∨ lookupField hs "authorization" = .jstr "") →
      (getModelsRequest upstream hs).headers = [] ∧
      (postCompletions upstream provider body hs).2.headers =
        [("Accept", .jstr "application/json"), ("Content-Type", .jstr "application/json")]) ∧
    (getProvidersRequest upstream).headers = [] := by
  refine ⟨?_, ?_, rfl⟩
  · intro a ha hne
    constructor
    · simp [getModelsRequest, ha, truthy, hne]
    · simp [postCompletions, ha, truthy, hne]
  · rintro (ha | ha)
    · exact ⟨by simp [getModelsRequest, ha, truthy],
        by simp [postCompletions, ha, truthy]⟩
    · exact ⟨by simp [getModelsRequest, ha, truthy],
        by simp [postCompletions, ha, truthy]⟩

/-- Witness for `C9_auth_passthrough` with the inbound header
`authorization: Bearer tok`. -/
theorem C9_auth_passthrough_witness :
    (getModelsRequest "http://u" [("authorization", .jstr "Bearer tok")]).headers =
      [("Authorization", .jstr "Bearer tok")] ∧
    (postCompletions "http://u" (.jstr "p") (.jobj [])
        [("authorization", .jstr "Bearer tok")]).2.headers =
      [("Accept", .jstr "application/json"), ("Content-Type", .jstr "application/json"),
       ("Authorization", .jstr "Bearer tok")] ∧
    (getProvidersRequest "http://u").headers = [] := by
  have h := C9_auth_passthrough "http://u" [("authorization", .jstr "Bearer tok")]
    (.jstr "p") (.jobj [])
  have h1 := h.1 "Bearer tok" rfl (by decide)
  exact ⟨h1.1, h1.2, h.2.2⟩

/-! ## Claim C10 -/

theorem lookupField_setField_self (fs : List (String × JVal)) (k : String) (v : JVal) :
    lookupField (setField fs k v) k = v := by
  induction fs with
  | nil => rw [setField, lookupField, if_pos rfl]
  | cons hd tl ih =>
    obtain ⟨k', w⟩ := hd
    by_cases hk : k' = k
    · rw [setField, if_pos hk, lookupField, if_pos rfl]
    · rw [setField, if_neg hk, lookupField, if_neg hk]
      exact ih

theorem lookupField_setField_ne (fs : List (String × JVal)) (k k' : String) (v : JVal)
    (h : k' ≠ k) : lookupField (setField fs k v) k' = lookupField fs k' := by
  induction fs with
  | nil =>
    have hne : ¬(k = k') := fun hc => h hc.symm
    simp [setField, lookupField, hne]
  | cons hd tl ih =>
    obtain ⟨k0, w⟩ := hd
    by_cases hk : k0 = k
    · subst hk
      rw [setField, if_pos rfl, lookupField, lookupField,
        if_neg (fun hc => h hc.symm), if_neg (fun hc => h hc.symm)]
    · rw [setField, if_neg hk]
      by_cases h0 : k0 = k'
      · rw [lookupField, if_pos h0, lookupField, if_pos h0]
      · rw [lookupField, if_neg h0, lookupField, if_neg h0]
        exact ih

/-- C10: `postCompletions` mutates the request body object in place — the
forwarded body is the very object left in the caller's hands after the
call, its `provider` field is set to the configured provider value,
overwriting any caller-supplied `provider`, and every other field is
unchanged. -/
theorem C10_body_mutation (upstream : String) (provider : JVal)
    (fs : List (String × JVal)) (hs : List (String × JVal)) :
    (postCompletions upstream provider (.jobj fs) hs).2.body =
      some (postCompletions upstream provider (.jobj fs) hs).1 ∧
    (postCompletions upstream provider (.jobj fs) hs).1 =
      .jobj (setField fs "provider" provider) ∧
    lookupField (setField fs "provider" provider) "provider" = provider ∧
    (∀ k, k ≠ "provider" →
      lookupField (setField fs "provider" provider) k = lookupField fs k) := by
  refine ⟨rfl, rfl, lookupField_setField_self fs "provider" provider, ?_⟩
  intro k hk
  exact lookupField_setField_ne fs "provider" k provider hk

/-- Witness for `C10_body_mutation` on the body
`{model: "gpt-4", provider: "caller"}` with configured provider
`"OpenaiAPI"`: the forwarded body is the mutated object, `provider` is
overwritten and `model` is untouched. -/
theorem C10_body_mutation_witness :
    (postCompletions "http://u" (.jstr "OpenaiAPI")
        (.jobj [("model", .jstr "gpt-4"), ("provider", .jstr "caller")]) []).2.body =
      some (postCompletions "http://u" (.jstr "OpenaiAPI")
        (.jobj [("model", .jstr "gpt-4"), ("provider", .jstr "caller")]) []).1 ∧
    lookupField (setField [("model", .jstr "gpt-4"), ("provider", .jstr "caller")]
      "provider" (.jstr "OpenaiAPI")) "provider" = .jstr "OpenaiAPI" ∧
    lookupField (setField [("model", .jstr "gpt-4"), ("provider", .jstr "caller")]
      "provider" (.jstr "OpenaiAPI")) "model" =
      lookupField [("model", .jstr "gpt-4"), ("provider", .jstr "caller")] "model" := by
  have h := C10_body_mutation "http://u" (.jstr "OpenaiAPI")
    [("model", .jstr "gpt-4"), ("provider", .jstr "caller")] []
  exact ⟨h.1, h.2.2.1, h.2.2.2 "model" (by decide)⟩
